import Mathlib

/-!
Verification development for the lead-management campaign pipeline.

The definitions below are a shallow embedding of the pipeline core:

* `services/scraperService.js` (hardened revision): `isValidEmail`,
  `deduplicateLeads`, `scoreLeadsInBatches`, `normalizeLeadData`;
* `controllers/campaignController.js`: the background `executePipeline`
  orchestrator (scrape → quality filter → score → persist → finalize).

JavaScript-specific behaviour is modelled explicitly:

* `null`/`undefined`/absent string fields are `Option.none`; the empty
  string is a distinct falsy value, so truthiness tests are `truthy`;
* `a || b` on such fields is `jsOr`;
* `String.prototype.toLowerCase` / `trim` are `jsToLower` / `jsTrim`,
  implemented structurally over the character list (ASCII-faithful);
* external calls (Apify scrape, LLM scoring batches, Mongo writes) are
  oracles supplied through environment records: each call's outcome
  (resolved value or thrown error message) is an environment field, so a
  pipeline run is a pure function of its environment.
-/

/-- JavaScript truthiness of an optional string field: `null`/`undefined`
(modelled as `none`) and the empty string are falsy. -/
def truthy : Option String → Bool
  | none => false
  | some s => !(s == "")

/-- JavaScript `a || b` on optional string values: `a` when truthy, else `b`
(returning `b`'s value even when `b` itself is falsy). -/
def jsOr (a b : Option String) : Option String := if truthy a then a else b

/-- Model of JavaScript `String.prototype.toLowerCase` (per-character). -/
def jsToLower (s : String) : String := String.mk (s.data.map Char.toLower)

/-- Model of JavaScript `String.prototype.trim`: strip leading and trailing
whitespace. -/
def jsTrim (s : String) : String :=
  String.mk (((s.data.dropWhile Char.isWhitespace).reverse.dropWhile Char.isWhitespace).reverse)

/-- The normalized Lead candidate shape produced by the scraper service and
consumed by scoring and persistence (`models/Lead.js` core fields; `rawData`
is opaque audit payload excluded from identity and scoring, so it is not
modelled). -/
structure Lead where
  fullName : Option String := none
  email : Option String := none
  phone : Option String := none
  jobTitle : Option String := none
  company : Option String := none
  linkedinUrl : Option String := none
  location : Option String := none
  source : Option String := none
  matchScore : Option Int := none
deriving Repr, DecidableEq

instance : Inhabited Lead := ⟨{}⟩

/-! ## Email validation (scraperService.js: EMAIL_REGEX, JUNK_EMAIL_VALUES, isValidEmail) -/

/-- `JUNK_EMAIL_VALUES` from scraperService.js. -/
def JUNK_EMAIL_VALUES : List String :=
  ["n/a", "na", "none", "null", "undefined", "-", ".",
   "no email", "noemail", "email", "test", "example"]

/-- A character matched by `[^\s@]` in `EMAIL_REGEX`. -/
def emailAtomChar (c : Char) : Bool := !c.isWhitespace && c != '@'

/-- Split a character list at the first occurrence of `c`; `none` when `c`
does not occur. -/
def splitAtFirst (c : Char) : List Char → Option (List Char × List Char)
  | [] => none
  | x :: xs =>
    if x = c then some ([], xs)
    else (splitAtFirst c xs).map (fun p => (x :: p.1, p.2))

/-- Decision procedure for membership in the language of
`EMAIL_REGEX = /^[^\s@]+@[^\s@]+\.[^\s@]+$/`: exactly one `@`; a nonempty
whitespace-free local part; a nonempty whitespace-free domain containing a
`.` that is neither its first nor its last character. -/
def emailRegexTest (s : String) : Bool :=
  match splitAtFirst '@' s.data with
  | none => false
  | some (localPart, domainPart) =>
    !localPart.isEmpty && localPart.all emailAtomChar &&
    !domainPart.isEmpty && domainPart.all emailAtomChar &&
    ((domainPart.drop 1).dropLast.contains '.')

/-- `isValidEmail` from scraperService.js: reject `null`/non-strings, clean
with `trim().toLowerCase()`, reject junk values, then test `EMAIL_REGEX`. -/
def isValidEmail (email : Option String) : Bool :=
  match email with
  | none => false
  | some s =>
    let cleaned := jsToLower (jsTrim s)
    if JUNK_EMAIL_VALUES.contains cleaned then false
    else emailRegexTest cleaned

/-! ## Deduplication (scraperService.js: deduplicateLeads)

The source keeps one JS `Set` holding strings `"email:" + key` and
`"composite:" + key`; it is modelled as a `List String` queried by
membership. -/

/-- The email identity key of a lead: present when `lead.email` is truthy,
computed as `lead.email.toLowerCase().trim()`. -/
def emailKey (l : Lead) : Option String :=
  if truthy l.email then some (jsTrim (jsToLower (l.email.getD ""))) else none

/-- The fullName+company composite identity key of a lead: present when both
fields are truthy, computed as
`fullName.toLowerCase().trim() + "|" + company.toLowerCase().trim()`. -/
def compositeKey (l : Lead) : Option String :=
  if truthy l.fullName && truthy l.company then
    some (jsTrim (jsToLower (l.fullName.getD "")) ++ "|" ++ jsTrim (jsToLower (l.company.getD "")))
  else none

/-- Second half of the loop body of `deduplicateLeads`: the composite-key
check, reached only when the email check did not `continue`. Returns
(keep lead?, updated seen set). -/
def dedupAfterEmail (seen : List String) (l : Lead) : Bool × List String :=
  match compositeKey l with
  | some c =>
    if ("composite:" ++ c) ∈ seen then (false, seen)
    else (true, ("composite:" ++ c) :: seen)
  | none => (true, seen)

/-- One iteration of the `deduplicateLeads` loop: the email check (which adds
the email key to `seen` before the composite check runs), then
`dedupAfterEmail`. -/
def dedupStep (seen : List String) (l : Lead) : Bool × List String :=
  match emailKey l with
  | some k =>
    if ("email:" ++ k) ∈ seen then (false, seen)
    else dedupAfterEmail (("email:" ++ k) :: seen) l
  | none => dedupAfterEmail seen l

/-- The `deduplicateLeads` loop over the remaining input. -/
def dedupGo (seen : List String) : List Lead → List Lead
  | [] => []
  | l :: ls =>
    match dedupStep seen l with
    | (true, seen2) => l :: dedupGo seen2 ls
    | (false, seen2) => dedupGo seen2 ls

/-- `deduplicateLeads` from scraperService.js. -/
def deduplicateLeads (leads : List Lead) : List Lead := dedupGo [] leads

/-! ## Batched LLM scoring (scraperService.js: scoreLeadsInBatches) -/

/-- `SCORING_BATCH_SIZE` from scraperService.js. -/
def SCORING_BATCH_SIZE : Nat := 20

/-- `MIN_MATCH_SCORE` from scraperService.js. -/
def MIN_MATCH_SCORE : Int := 40

/-- One entry of the parsed per-batch LLM response:
`{ "index": number, "score": number }` (the `reason` field is unused by the
merge). `score` here is the JS value after `scoreEntry.score || 0`, so an
absent score is environment value `0`. -/
structure ScoreEntry where
  index : Int
  score : Int
deriving Repr, DecidableEq

/-- Environment for one `scoreLeadsInBatches` run: whether `GOOGLE_API_KEY`
is configured, and for each batch index the outcome of the scoring call —
`.error m` for a thrown call or a `JSON.parse` failure on its response,
`.ok entries` for a successfully parsed entry array. -/
structure ScoreEnv where
  apiKeyPresent : Bool
  respond : Nat → Except String (List ScoreEntry)

/-- JS object spread `{ ...lead, matchScore: s }`. -/
def setScore (l : Lead) (s : Int) : Lead := { l with matchScore := some s }

/-- `Math.max(0, Math.min(100, s))`. -/
def clampScore (s : Int) : Int := max 0 (min 100 s)

/-- The batch partition loop: `leads.slice(i, i + SCORING_BATCH_SIZE)` for
`i = 0, 20, 40, ...`. -/
def chunk20 : List Lead → List (List Lead)
  | [] => []
  | l :: ls =>
    ((l :: ls).take SCORING_BATCH_SIZE) :: chunk20 ((l :: ls).drop SCORING_BATCH_SIZE)
termination_by x => x.length
decreasing_by simp [SCORING_BATCH_SIZE]; omega

/-- The merge of one response entry back into its batch:
`if (idx >= 0 && idx < batch.length) push({ ...batch[idx], matchScore: clamp(score) })`.
Entries with out-of-range indices are skipped (`get?` realises the upper
bound check). -/
def mergeEntry (batch : List Lead) (e : ScoreEntry) : Option Lead :=
  if 0 ≤ e.index then
    (batch.get? e.index.toNat).map (fun l => setScore l (clampScore e.score))
  else none

/-- The per-batch try/catch body of `scoreLeadsInBatches`: on a parsed
response, merge its entries in response order; on a thrown call or parse
failure, give every lead of the batch the default score 50. -/
def processBatch (env : ScoreEnv) (batchIdx : Nat) (batch : List Lead) : List Lead :=
  match env.respond batchIdx with
  | .ok entries => entries.filterMap (mergeEntry batch)
  | .error _ => batch.map (fun l => setScore l 50)

/-- `l.matchScore >= MIN_MATCH_SCORE` under JS semantics (`undefined >= 40`
is false). -/
def scoreGe40 (l : Lead) : Bool :=
  match l.matchScore with
  | some s => decide (MIN_MATCH_SCORE ≤ s)
  | none => false

/-- Numeric value used by the sort comparator `b.matchScore - a.matchScore`
(all leads reaching the sort carry a score). -/
def scoreOf (l : Lead) : Int := l.matchScore.getD 0

/-- The descending-by-score ordering realised by the stable JS
`Array.prototype.sort` with comparator `(a, b) => b.matchScore - a.matchScore`. -/
def scoreDescLe (a b : Lead) : Bool := decide (scoreOf b ≤ scoreOf a)

/-- `allScoredLeads` accumulated over all batches of a run, in batch order
(the state of the lead set after the batch loop, before threshold filtering). -/
def allScoredLeads (env : ScoreEnv) (leads : List Lead) : List Lead :=
  ((chunk20 leads).enum.map (fun p => processBatch env p.1 p.2)).flatten

/-- `scoreLeadsInBatches` from scraperService.js: the missing-API-key guard
(default score 50, no filtering), the empty-input guard, then batch scoring,
threshold filtering, and the stable descending sort. -/
def scoreLeadsInBatches (env : ScoreEnv) (leads : List Lead) : List Lead :=
  if !env.apiKeyPresent then leads.map (fun l => setScore l 50)
  else if leads.isEmpty then []
  else ((allScoredLeads env leads).filter scoreGe40).mergeSort scoreDescLe

/-! ## Normalization (scraperService.js: normalizeLeadData) -/

/-- A raw record as returned by an acquisition call, restricted to the
fields `normalizeLeadData` reads. Absent/null fields are `none`. -/
structure RawRecord where
  name : Option String := none
  fullName : Option String := none
  firstName : Option String := none
  lastName : Option String := none
  title : Option String := none
  email : Option String := none
  emailAddress : Option String := none
  mail : Option String := none
  phone : Option String := none
  phoneNumber : Option String := none
  telephone : Option String := none
  jobTitle : Option String := none
  position : Option String := none
  headline : Option String := none
  company : Option String := none
  companyName : Option String := none
  organization : Option String := none
  url : Option String := none
  linkedinUrl : Option String := none
  profileUrl : Option String := none
  website : Option String := none
  location : Option String := none
  city : Option String := none
  region : Option String := none
deriving Repr, DecidableEq

/-- JS `platform.charAt(0).toUpperCase() + platform.slice(1)`. -/
def capitalizeFirst (s : String) : String :=
  match s.data with
  | [] => ""
  | c :: cs => String.mk (c.toUpper :: cs)

/-- The fullName expression of `normalizeLeadData`:
`raw.name || raw.fullName || raw.firstName ?
   `${raw.firstName || ""} ${raw.lastName || ""}`.trim() || raw.name || raw.fullName
 : raw.title || null`. -/
def rawRecordFullName (raw : RawRecord) : Option String :=
  if truthy raw.name || truthy raw.fullName || truthy raw.firstName then
    jsOr (jsOr (some (jsTrim ((raw.firstName.getD "") ++ " " ++ (raw.lastName.getD "")))) raw.name)
      raw.fullName
  else jsOr raw.title none

/-- `const rawEmail = raw.email || raw.emailAddress || raw.mail || null`. -/
def rawEmailField (raw : RawRecord) : Option String :=
  jsOr raw.email (jsOr raw.emailAddress (jsOr raw.mail none))

/-- `const email = isValidEmail(rawEmail) ? rawEmail.trim().toLowerCase() : null`. -/
def normalizedEmail (raw : RawRecord) : Option String :=
  if isValidEmail (rawEmailField raw) then some (jsToLower (jsTrim ((rawEmailField raw).getD "")))
  else none

/-- `const phone = raw.phone || raw.phoneNumber || raw.telephone || null`. -/
def rawPhoneField (raw : RawRecord) : Option String :=
  jsOr raw.phone (jsOr raw.phoneNumber (jsOr raw.telephone none))

/-- `const linkedinUrl = raw.url || raw.linkedinUrl || raw.profileUrl || raw.website || null`. -/
def rawUrlField (raw : RawRecord) : Option String :=
  jsOr raw.url (jsOr raw.linkedinUrl (jsOr raw.profileUrl (jsOr raw.website none)))

/-- `normalizeLeadData` from scraperService.js (hardened revision): `none`
models `return null`. A candidate is kept only with a fullName of length at
least 2 and at least one of a validated email, a truthy phone, or a truthy
reference URL. -/
def normalizeLeadData (raw : RawRecord) (platform : String) : Option Lead :=
  let fullName := rawRecordFullName raw
  if !truthy fullName || (fullName.getD "").length < 2 then none
  else if !truthy (normalizedEmail raw) && !truthy (rawPhoneField raw) &&
      !truthy (rawUrlField raw) then none
  else some
    { fullName := fullName
      email := normalizedEmail raw
      phone := rawPhoneField raw
      jobTitle := jsOr raw.title (jsOr raw.jobTitle (jsOr raw.position (jsOr raw.headline none)))
      company := jsOr raw.company (jsOr raw.companyName (jsOr raw.organization none))
      linkedinUrl := rawUrlField raw
      location := jsOr raw.location (jsOr raw.city (jsOr raw.region none))
      source := some (capitalizeFirst platform)
      matchScore := none }

/-! ## The orchestrator (campaignController.js: executePipeline)

A run is a pure function of a `PipelineEnv` describing the outcome of every
external call the run makes: the `scrapeLeads` call, the
`scoreLeadsInBatches` call, the `Lead.insertMany` call, and each MongoDB
`Campaign.updateOne` write (the four status writes individually, the
`$push` log writes by call index). `Campaign.updateOne` rejections carry
the error message the corresponding JS promise would reject with. -/

/-- Campaign `status` values reachable by this subsystem. -/
inductive CampaignStatus
  | scraping
  | scoring
  | ready
  | failed_scraping
deriving Repr, DecidableEq

/-- The Campaign document fields the pipeline writes. -/
structure CampaignDoc where
  status : CampaignStatus
  errorMessage : Option String := none
  leadCount : Option Nat := none
  logs : List String := []
deriving Repr, DecidableEq

/-- Outcomes of all external calls of one `executePipeline` run. -/
structure PipelineEnv where
  /-- outcome of the `scrapeLeads(...)` call: lead list, or thrown error. -/
  scrapeResult : Except String (List Lead)
  /-- outcome of the `scoreLeadsInBatches(...)` call, as a function of the
  lead list it is invoked on: filtered scored list, or thrown error. -/
  scoreResult : List Lead → Except String (List Lead)
  /-- outcome of `Lead.insertMany`: `none` resolves, `some m` rejects. -/
  insertManyError : Option String := none
  /-- whether the n-th `logToDb` call's `updateOne` rejects (its rejection
  is swallowed by `.catch(() => {})`). -/
  logWriteFails : Nat → Bool := fun _ => false
  /-- rejection of `updateOne({ status: "scraping" })`. -/
  scrapingWriteError : Option String := none
  /-- rejection of the `failed_scraping` status write. -/
  failedWriteError : Option String := none
  /-- rejection of `updateOne({ status: "scoring" })`. -/
  scoringWriteError : Option String := none
  /-- rejection of the final `{ status: "ready", leadCount }` write. -/
  readyWriteError : Option String := none

/-- Mutable state threaded through a run: the Campaign document plus the
index of the next `logToDb` call. -/
structure PipeState where
  doc : CampaignDoc
  logIdx : Nat := 0
deriving Repr

/-- The `logToDb` helper of `executePipeline`: appends a log entry; a
storage rejection is swallowed (`.catch(() => {})`), leaving the document
unchanged and never raising. -/
def logToDb (env : PipelineEnv) (st : PipeState) (msg : String) : PipeState :=
  { doc :=
      if env.logWriteFails st.logIdx then st.doc
      else { st.doc with logs := st.doc.logs ++ [msg] },
    logIdx := st.logIdx + 1 }

/-- The orchestrator's quality filter (Stage A):
`lead.fullName && (lead.email || lead.phone)`. -/
def qualityFilter (l : Lead) : Bool := truthy l.fullName && (truthy l.email || truthy l.phone)

/-- Stage A try-block of `executePipeline`: log, write status `scraping`,
call `scrapeLeads`, log, apply the quality filter, log. `.error` is a throw
caught by the Stage A catch, carrying the state at the throw point. -/
def stageScraping (env : PipelineEnv) (st : PipeState) :
    Except (String × PipeState) (List Lead × PipeState) :=
  let st1 := logToDb env st "Phase 2A: Starting lead scraping..."
  match env.scrapingWriteError with
  | some m => .error (m, st1)
  | none =>
    let st2 := { st1 with doc := { st1.doc with status := .scraping } }
    match env.scrapeResult with
    | .error m => .error (m, st2)
    | .ok rawLeads =>
      let st3 := logToDb env st2
        ("Phase 2B: Cleaning " ++ toString rawLeads.length ++ " scraped leads...")
      let cleanLeads := rawLeads.filter qualityFilter
      let st4 := logToDb env st3 (toString cleanLeads.length ++ " leads passed quality filter.")
      .ok (cleanLeads, st4)

/-- Stage B of `executePipeline` (guard + try/catch): when `cleanLeads` is
nonempty, write status `scoring`, log, and call `scoreLeadsInBatches`; any
throw inside the try-block (including the status write) is caught, logged,
and the stage continues with `cleanLeads` unchanged. Returns (lead list
after the stage, state, input that `scoreLeadsInBatches` was invoked on if
it was invoked). -/
def stageScoring (env : PipelineEnv) (st : PipeState) (cleanLeads : List Lead) :
    List Lead × PipeState × Option (List Lead) :=
  if cleanLeads.length > 0 then
    match env.scoringWriteError with
    | some m =>
      (cleanLeads, logToDb env st ("AI scoring failed: " ++ m ++ ". Using unscored leads."), none)
    | none =>
      let st1 := { st with doc := { st.doc with status := .scoring } }
      let st2 := logToDb env st1
        ("Phase 2C: AI-scoring " ++ toString cleanLeads.length ++ " leads...")
      match env.scoreResult cleanLeads with
      | .error m =>
        (cleanLeads,
         logToDb env st2 ("AI scoring failed: " ++ m ++ ". Using unscored leads."),
         some cleanLeads)
      | .ok scored =>
        (scored,
         logToDb env st2 (toString scored.length ++ " leads survived AI scoring filter."),
         some cleanLeads)
  else (cleanLeads, st, none)

/-- Stage C of `executePipeline`: when the lead list is nonempty, call
`Lead.insertMany` (unordered bulk insert) and log; an insert rejection is
caught and logged, non-fatal. Returns (state, list `insertMany` was called
on if it was called, whether the call resolved). -/
def stagePersist (env : PipelineEnv) (st : PipeState) (leads : List Lead) :
    PipeState × Option (List Lead) × Bool :=
  if leads.length > 0 then
    match env.insertManyError with
    | none =>
      (logToDb env st (toString leads.length ++ " leads saved to database (bulk insert)."),
       some leads, true)
    | some m => (logToDb env st ("Database error: " ++ m), some leads, false)
  else (logToDb env st "No leads to persist after filtering.", none, false)

/-- Observable outcome of one `executePipeline` run. -/
structure RunResult where
  /-- final state of the Campaign document. -/
  doc : CampaignDoc
  /-- the input `scoreLeadsInBatches` was invoked on, if it was invoked. -/
  scoreCalledWith : Option (List Lead) := none
  /-- the lead list `Lead.insertMany` was invoked on, if it was invoked
  (`none` means no Lead Records were created for the Campaign). -/
  persistCalledWith : Option (List Lead) := none
  /-- whether the `insertMany` call resolved without throwing. -/
  persistSucceeded : Bool := false
  /-- an error escaping `executePipeline` uncaught (reported only by the
  detached caller's console handler); only the two terminal status writes
  sit outside every try/catch. -/
  escapedError : Option String := none
deriving Repr, DecidableEq

/-- `executePipeline` from campaignController.js, as a pure function of the
run's environment. The initial document is the one `handleCampaignExecute`
creates: status `scraping` with one log entry. -/
def executePipeline (env : PipelineEnv) : RunResult :=
  let st0 : PipeState := { doc := { status := .scraping, logs := ["Campaign execution initiated."] } }
  match stageScraping env st0 with
  | .error (m, stE) =>
    let stE1 := logToDb env stE ("Scraping failed: " ++ m)
    match env.failedWriteError with
    | some m2 => { doc := stE1.doc, escapedError := some m2 }
    | none =>
      { doc := { stE1.doc with status := .failed_scraping, errorMessage := some m } }
  | .ok (cleanLeads, st) =>
    let sb := stageScoring env st cleanLeads
    let finalLeads := sb.1
    let sc := stagePersist env sb.2.1 finalLeads
    match env.readyWriteError with
    | some m =>
      { doc := sc.1.doc, scoreCalledWith := sb.2.2, persistCalledWith := sc.2.1,
        persistSucceeded := sc.2.2, escapedError := some m }
    | none =>
      let st4 := { sc.1 with doc :=
        { sc.1.doc with status := .ready, leadCount := some finalLeads.length } }
      let st5 := logToDb env st4
        ("Campaign execution complete! " ++ toString finalLeads.length ++
         " leads scored & ready for outreach.")
      { doc := st5.doc, scoreCalledWith := sb.2.2, persistCalledWith := sc.2.1,
        persistSucceeded := sc.2.2 }

/-! ## Helper lemmas: logging touches only the log trail -/

@[simp]
theorem logToDb_doc_status (env : PipelineEnv) (st : PipeState) (msg : String) :
    (logToDb env st msg).doc.status = st.doc.status := by
  simp only [logToDb]; split <;> rfl

@[simp]
theorem logToDb_doc_errorMessage (env : PipelineEnv) (st : PipeState) (msg : String) :
    (logToDb env st msg).doc.errorMessage = st.doc.errorMessage := by
  simp only [logToDb]; split <;> rfl

@[simp]
theorem logToDb_doc_leadCount (env : PipelineEnv) (st : PipeState) (msg : String) :
    (logToDb env st msg).doc.leadCount = st.doc.leadCount := by
  simp only [logToDb]; split <;> rfl

@[simp]
theorem logToDb_logIdx (env : PipelineEnv) (st : PipeState) (msg : String) :
    (logToDb env st msg).logIdx = st.logIdx + 1 := rfl

/-- C1: if the Source Acquisition stage (`scrapeLeads`) throws, the run
aborts immediately: status becomes `failed_scraping` with the error message
recorded, scoring and persistence are never invoked, and no Lead Records
are created for the Campaign. (The status writes themselves resolve; a
storage failure of the `failed_scraping` write is the orchestrator's known
gap, outside this claim.) -/
theorem scrape_throw_aborts (env : PipelineEnv) (m : String)
    (hw : env.scrapingWriteError = none)
    (hs : env.scrapeResult = .error m)
    (hf : env.failedWriteError = none) :
    (executePipeline env).doc.status = .failed_scraping ∧
    (executePipeline env).doc.errorMessage = some m ∧
    (executePipeline env).scoreCalledWith = none ∧
    (executePipeline env).persistCalledWith = none ∧
    (executePipeline env).persistSucceeded = false ∧
    (executePipeline env).escapedError = none := by
  simp [executePipeline, stageScraping, hw, hs, hf]

/-- A concrete run environment in which the scrape call throws. -/
def envScrapeThrows : PipelineEnv :=
  { scrapeResult := .error "Apify actor failed",
    scoreResult := fun _ => .ok [] }

/-- Witness for `scrape_throw_aborts` at a concrete environment. -/
theorem scrape_throw_aborts_witness :
    (executePipeline envScrapeThrows).doc.status = .failed_scraping ∧
    (executePipeline envScrapeThrows).doc.errorMessage = some "Apify actor failed" ∧
    (executePipeline envScrapeThrows).scoreCalledWith = none ∧
    (executePipeline envScrapeThrows).persistCalledWith = none ∧
    (executePipeline envScrapeThrows).persistSucceeded = false ∧
    (executePipeline envScrapeThrows).escapedError = none :=
  scrape_throw_aborts envScrapeThrows "Apify actor failed" rfl rfl rfl

/-- C2: whatever the stage outcomes (scrape, scoring, persistence each
resolving or throwing, in any combination), a run whose own two terminal
status writes resolve never lets an exception escape and always leaves the
Campaign in a terminal status — `ready` carrying a `leadCount`, or
`failed_scraping` — never stuck in `scraping`/`scoring`. -/
theorem run_ends_terminal (env : PipelineEnv)
    (hf : env.failedWriteError = none)
    (hr : env.readyWriteError = none) :
    (executePipeline env).escapedError = none ∧
    ((executePipeline env).doc.status = .ready ∨
      (executePipeline env).doc.status = .failed_scraping) ∧
    ((executePipeline env).doc.status = .ready →
      ∃ n, (executePipeline env).doc.leadCount = some n) := by
  unfold executePipeline
  cases hA : stageScraping env
      { doc := { status := .scraping, logs := ["Campaign execution initiated."] } } with
  | error p => obtain ⟨m, stE⟩ := p; simp [hA, hf]
  | ok p => obtain ⟨clean, st⟩ := p; simp [hA, hr]

/-- Witness for `run_ends_terminal`: a run whose scoring and persistence
both throw still ends `ready`. -/
def envDegraded : PipelineEnv :=
  { scrapeResult := .ok [{ fullName := some "Jane Roe", email := some "jane@acme.com" }],
    scoreResult := fun _ => .error "LLM unreachable",
    insertManyError := some "duplicate key" }

/-- Witness for `run_ends_terminal` at a concrete degraded environment. -/
theorem run_ends_terminal_witness :
    (executePipeline envDegraded).escapedError = none ∧
    ((executePipeline envDegraded).doc.status = .ready ∨
      (executePipeline envDegraded).doc.status = .failed_scraping) ∧
    ((executePipeline envDegraded).doc.status = .ready →
      ∃ n, (executePipeline envDegraded).doc.leadCount = some n) :=
  run_ends_terminal envDegraded rfl rfl

/-- C3: if the Scoring stage (`scoreLeadsInBatches`) throws, the
orchestrator proceeds to persistence with the quality-filtered, unscored
lead list exactly as it stood before scoring, the bulk insert receives
those leads, and the run still finishes `ready` with `leadCount` equal to
their number. -/
theorem scoring_throw_nonfatal (env : PipelineEnv) (rawLeads : List Lead) (m : String)
    (hw : env.scrapingWriteError = none)
    (hs : env.scrapeResult = .ok rawLeads)
    (hne : 0 < (rawLeads.filter qualityFilter).length)
    (hsw : env.scoringWriteError = none)
    (hscore : env.scoreResult (rawLeads.filter qualityFilter) = .error m)
    (hp : env.insertManyError = none)
    (hr : env.readyWriteError = none) :
    (executePipeline env).doc.status = .ready ∧
    (executePipeline env).scoreCalledWith = some (rawLeads.filter qualityFilter) ∧
    (executePipeline env).persistCalledWith = some (rawLeads.filter qualityFilter) ∧
    (executePipeline env).persistSucceeded = true ∧
    (executePipeline env).doc.leadCount = some (rawLeads.filter qualityFilter).length ∧
    (executePipeline env).escapedError = none := by
  simp [executePipeline, stageScraping, stageScoring, stagePersist,
    hw, hs, hne, hsw, hscore, hp, hr]

/-- A concrete environment whose scoring call throws while everything else
resolves. -/
def envScoringThrows : PipelineEnv :=
  { scrapeResult := .ok
      [{ fullName := some "Jane Roe", email := some "jane@acme.com" },
       { fullName := some "No Contact" }],
    scoreResult := fun _ => .error "LLM unreachable" }

/-- Witness for `scoring_throw_nonfatal` at a concrete environment. -/
theorem scoring_throw_nonfatal_witness :
    (executePipeline envScoringThrows).doc.status = .ready ∧
    (executePipeline envScoringThrows).scoreCalledWith =
      some ((envScoringThrows.scrapeResult.toOption.getD []).filter qualityFilter) ∧
    (executePipeline envScoringThrows).persistCalledWith =
      some ((envScoringThrows.scrapeResult.toOption.getD []).filter qualityFilter) ∧
    (executePipeline envScoringThrows).persistSucceeded = true ∧
    (executePipeline envScoringThrows).doc.leadCount =
      some ((envScoringThrows.scrapeResult.toOption.getD []).filter qualityFilter).length ∧
    (executePipeline envScoringThrows).escapedError = none :=
  scoring_throw_nonfatal envScoringThrows
    [{ fullName := some "Jane Roe", email := some "jane@acme.com" },
     { fullName := some "No Contact" }]
    "LLM unreachable" rfl rfl (by decide) rfl rfl rfl rfl

/-! ## Status Tracker behaviour under storage errors -/

/-- The non-log observables of a run: final status, errorMessage, leadCount,
the scoring input, the persisted list, persistence success, and any escaped
exception — everything except the log trail. -/
def runCtrl (r : RunResult) :
    CampaignStatus × Option String × Option Nat × Option (List Lead) × Option (List Lead) ×
      Bool × Option String :=
  (r.doc.status, r.doc.errorMessage, r.doc.leadCount, r.scoreCalledWith, r.persistCalledWith,
   r.persistSucceeded, r.escapedError)

/-- Two environments whose stage-call outcomes (scrape, scoring,
insertMany) agree, and which may differ only in the storage behaviour of
the Status Tracker operations (log appends and campaign status updates). -/
def statusTrackerAgree (e1 e2 : PipelineEnv) : Prop :=
  e1.scrapeResult = e2.scrapeResult ∧ e1.scoreResult = e2.scoreResult ∧
  e1.insertManyError = e2.insertManyError

/-- Equal control flow of two runs: same final status, same scoring input
(and whether scoring ran), same persisted list (and whether persistence
ran), same escape behaviour. -/
def sameControlFlow (r1 r2 : RunResult) : Prop :=
  r1.doc.status = r2.doc.status ∧ r1.scoreCalledWith = r2.scoreCalledWith ∧
  r1.persistCalledWith = r2.persistCalledWith ∧ r1.escapedError = r2.escapedError

/-- Log-write failures are invisible outside the log trail: flipping the
storage outcome of every `logToDb` call changes no non-log observable of
the run. -/
theorem pipeline_logWrite_invariant (env : PipelineEnv) (lf : Nat → Bool) :
    runCtrl (executePipeline { env with logWriteFails := lf }) = runCtrl (executePipeline env) := by
  obtain ⟨scrape, score, ins, logf, w1, w2, w3, w4⟩ := env
  unfold executePipeline stageScraping stageScoring stagePersist
  dsimp only
  cases w1 <;> cases scrape <;> cases w2 <;> cases w4 <;> dsimp only [runCtrl] <;> simp <;>
    (repeat' split) <;> simp_all

/-- A concrete environment with one clean lead and all storage healthy. -/
def envStatusWriteOk : PipelineEnv :=
  { scrapeResult := .ok [{ fullName := some "Jane Roe", email := some "jane@acme.com" }],
    scoreResult := fun ls => .ok ls }

/-- The same environment except that the `updateOne({ status: "scraping" })`
write rejects. -/
def envStatusWriteFails : PipelineEnv :=
  { envStatusWriteOk with scrapingWriteError := some "storage down" }

/-- A concrete environment in which only the `updateOne({ status: "scoring" })`
write rejects. -/
def envScoringWriteFails : PipelineEnv :=
  { scrapeResult := .ok [{ fullName := some "Jane Roe", email := some "jane@acme.com" }],
    scoreResult := fun ls => .ok ls,
    scoringWriteError := some "storage down" }

/-- C8 counterexample: it is NOT the case that a storage error during a
Status Tracker operation never changes the pipeline's control flow. The two
environments differ only in the storage outcome of the `scraping` status
update, yet one run ends `ready` and the other aborts to `failed_scraping`
without ever scoring: the status updates, unlike the log appends, are not
error-swallowed — a rejection is caught by the surrounding stage handler
and redirects the run. -/
theorem statusTracker_bestEffort_counterexample :
    ¬ (∀ e1 e2 : PipelineEnv, statusTrackerAgree e1 e2 →
        sameControlFlow (executePipeline e1) (executePipeline e2)) := fun h =>
  absurd (h envStatusWriteOk envStatusWriteFails ⟨rfl, rfl, rfl⟩).1 (by decide)

/-- C8 amended: only the log appends (`logToDb`) are best-effort — their
storage errors are swallowed by `.catch(() => {})` and change no non-log
observable of the run. The status updates are not error-guarded: a storage
error during the `scraping` status update is handled as a scraping failure
(the run aborts to `failed_scraping`, recording that storage error message,
with no scoring or persistence); a storage error during the `scoring`
status update skips the scoring call while the run still persists the
unscored leads and ends `ready`; and a storage error during either terminal
write — the `failed_scraping` write (reached when Stage A threw, from
either its status write or the scrape call) or the final `ready` write —
escapes `executePipeline` uncaught. -/
theorem statusTracker_amended :
    (∀ (env : PipelineEnv) (lf : Nat → Bool),
      runCtrl (executePipeline { env with logWriteFails := lf }) =
        runCtrl (executePipeline env)) ∧
    (∀ (env : PipelineEnv) (m : String),
      env.scrapingWriteError = some m → env.failedWriteError = none →
      (executePipeline env).doc.status = .failed_scraping ∧
      (executePipeline env).doc.errorMessage = some m ∧
      (executePipeline env).scoreCalledWith = none ∧
      (executePipeline env).persistCalledWith = none) ∧
    (∀ (env : PipelineEnv) (rawLeads : List Lead) (m : String),
      env.scrapingWriteError = none → env.scrapeResult = .ok rawLeads →
      0 < (rawLeads.filter qualityFilter).length →
      env.scoringWriteError = some m → env.readyWriteError = none →
      (executePipeline env).scoreCalledWith = none ∧
      (executePipeline env).persistCalledWith = some (rawLeads.filter qualityFilter) ∧
      (executePipeline env).doc.status = .ready) ∧
    (∀ (env : PipelineEnv) (m m2 : String),
      env.failedWriteError = some m2 →
      (env.scrapingWriteError = some m ∨
        (env.scrapingWriteError = none ∧ env.scrapeResult = .error m)) →
      (executePipeline env).escapedError = some m2) ∧
    (∀ (env : PipelineEnv) (rawLeads : List Lead) (m2 : String),
      env.scrapingWriteError = none → env.scrapeResult = .ok rawLeads →
      env.readyWriteError = some m2 →
      (executePipeline env).escapedError = some m2) := by
  refine ⟨pipeline_logWrite_invariant, ?_, ?_, ?_, ?_⟩
  · intro env m hw hf
    simp [executePipeline, stageScraping, hw, hf]
  · intro env rawLeads m hw hs hn hsw hr
    cases hins : env.insertManyError <;>
      simp [executePipeline, stageScraping, stageScoring, stagePersist, hw, hs, hn, hsw, hr, hins]
  · intro env m m2 hf hd
    rcases hd with hw | ⟨hw, hs⟩
    · simp [executePipeline, stageScraping, hw, hf]
    · simp [executePipeline, stageScraping, hw, hs, hf]
  · intro env rawLeads m2 hw hs hr
    simp [executePipeline, stageScraping, hw, hs, hr]

/-- A concrete environment where Stage A throws (the scrape call fails) and
the `failed_scraping` terminal write itself rejects. -/
def envFailedWriteFails : PipelineEnv :=
  { scrapeResult := .error "Apify actor failed",
    scoreResult := fun ls => .ok ls,
    failedWriteError := some "storage down" }

/-- A concrete environment where the run reaches the final `ready` write and
that write rejects. -/
def envReadyWriteFails : PipelineEnv :=
  { scrapeResult := .ok [{ fullName := some "Jane Roe", email := some "jane@acme.com" }],
    scoreResult := fun ls => .ok ls,
    readyWriteError := some "storage down" }

/-- Witness for `statusTracker_amended` at concrete environments. -/
theorem statusTracker_amended_witness :
    runCtrl (executePipeline { envStatusWriteFails with logWriteFails := fun _ => true }) =
      runCtrl (executePipeline envStatusWriteFails) ∧
    (executePipeline envStatusWriteFails).doc.status = .failed_scraping ∧
    (executePipeline envScoringWriteFails).scoreCalledWith = none ∧
    (executePipeline envScoringWriteFails).doc.status = .ready ∧
    (executePipeline envFailedWriteFails).escapedError = some "storage down" ∧
    (executePipeline envReadyWriteFails).escapedError = some "storage down" :=
  ⟨statusTracker_amended.1 envStatusWriteFails (fun _ => true),
   (statusTracker_amended.2.1 envStatusWriteFails "storage down" rfl rfl).1,
   (statusTracker_amended.2.2.1 envScoringWriteFails
      [{ fullName := some "Jane Roe", email := some "jane@acme.com" }]
      "storage down" rfl rfl (by decide) rfl rfl).1,
   (statusTracker_amended.2.2.1 envScoringWriteFails
      [{ fullName := some "Jane Roe", email := some "jane@acme.com" }]
      "storage down" rfl rfl (by decide) rfl rfl).2.2,
   statusTracker_amended.2.2.2.1 envFailedWriteFails "Apify actor failed" "storage down"
     rfl (Or.inr ⟨rfl, rfl⟩),
   statusTracker_amended.2.2.2.2 envReadyWriteFails
     [{ fullName := some "Jane Roe", email := some "jane@acme.com" }]
     "storage down" rfl rfl rfl⟩

/-! ## Normalization invariant -/

/-- A string accepted by `isValidEmail` yields a cleaned form that is
non-junk and matches `EMAIL_REGEX`. -/
theorem isValidEmail_eq_true (s : String) (h : isValidEmail (some s) = true) :
    JUNK_EMAIL_VALUES.contains (jsToLower (jsTrim s)) = false ∧
    emailRegexTest (jsToLower (jsTrim s)) = true := by
  simp only [isValidEmail] at h
  split at h
  · exact absurd h (by simp)
  · rename_i hj
    exact ⟨by simpa using hj, h⟩

/-- C9: every Lead candidate that survives normalization has a full name of
length at least 2 (hence non-empty) and at least one contact method — a
stored email (which is then non-junk and matches `EMAIL_REGEX`), a truthy
phone, or a truthy reference URL; and every candidate record failing this
invariant is discarded by `normalizeLeadData` itself (it returns `none`),
i.e. during normalization, before deduplication ever sees the record. -/
theorem normalization_invariant (raw : RawRecord) (platform : String) :
    (∀ l, normalizeLeadData raw platform = some l →
      truthy l.fullName = true ∧ 2 ≤ (l.fullName.getD "").length ∧
      (truthy l.email || truthy l.phone || truthy l.linkedinUrl) = true ∧
      ∀ e, l.email = some e →
        JUNK_EMAIL_VALUES.contains e = false ∧ emailRegexTest e = true) ∧
    ((truthy (rawRecordFullName raw) = false ∨
        ((rawRecordFullName raw).getD "").length < 2 ∨
        (truthy (normalizedEmail raw) = false ∧ truthy (rawPhoneField raw) = false ∧
          truthy (rawUrlField raw) = false)) →
      normalizeLeadData raw platform = none) := by
  constructor
  · intro l h
    simp only [normalizeLeadData] at h
    split at h
    · exact absurd h (by simp)
    · split at h
      · exact absurd h (by simp)
      · rename_i hname hcontact
        rw [Option.some.injEq] at h
        subst h
        dsimp only
        have hn1 : truthy (rawRecordFullName raw) = true ∧
            2 ≤ ((rawRecordFullName raw).getD "").length := by
          revert hname
          cases truthy (rawRecordFullName raw) <;> simp
        refine ⟨hn1.1, hn1.2, ?_, ?_⟩
        · revert hcontact
          cases truthy (normalizedEmail raw) <;> cases truthy (rawPhoneField raw) <;>
            cases truthy (rawUrlField raw) <;> simp
        · intro e he
          simp only [normalizedEmail] at he
          split at he
          · rename_i hv
            cases hr : rawEmailField raw with
            | none => rw [hr] at hv; exact absurd hv (by simp [isValidEmail])
            | some s =>
              rw [hr] at hv he
              rw [Option.some.injEq] at he
              subst he
              exact isValidEmail_eq_true s hv
          · exact absurd he (by simp)
  · intro hfail
    simp only [normalizeLeadData]
    split
    · rfl
    · split
      · rfl
      · rename_i h1 h2
        exfalso
        rcases hfail with h | h | ⟨ha, hb, hc⟩
        · exact h1 (by simp [h])
        · exact h1 (by simp [h])
        · exact h2 (by simp [ha, hb, hc])

/-- A concrete raw record with a name and a valid (mixed-case) email. -/
def rawWithContact : RawRecord := { name := some "Jane Roe", email := some "JANE@Acme.com" }

/-- The Lead that `normalizeLeadData` produces from `rawWithContact`. -/
def leadFromRawWithContact : Lead :=
  { fullName := some "Jane Roe", email := some "jane@acme.com", source := some "Apify" }

/-- A concrete raw record with a name but no contact method at all. -/
def rawNoContact : RawRecord := { name := some "Jo" }

/-- Witness for `normalization_invariant` at concrete raw records. -/
theorem normalization_invariant_witness :
    (truthy leadFromRawWithContact.fullName = true ∧
      2 ≤ (leadFromRawWithContact.fullName.getD "").length ∧
      (truthy leadFromRawWithContact.email || truthy leadFromRawWithContact.phone ||
        truthy leadFromRawWithContact.linkedinUrl) = true ∧
      ∀ e, leadFromRawWithContact.email = some e →
        JUNK_EMAIL_VALUES.contains e = false ∧ emailRegexTest e = true) ∧
    normalizeLeadData rawNoContact "apify" = none :=
  ⟨(normalization_invariant rawWithContact "apify").1 leadFromRawWithContact (by decide),
   (normalization_invariant rawNoContact "apify").2 (Or.inr (Or.inr (by decide)))⟩

/-! ## Scorer structure lemmas -/

/-- The batch partition is exhaustive and order-preserving: flattening the
batches gives back the input. -/
theorem chunk20_flatten : ∀ l : List Lead, (chunk20 l).flatten = l
  | [] => by simp [chunk20]
  | x :: xs => by
    rw [chunk20]
    have ih := chunk20_flatten ((x :: xs).drop SCORING_BATCH_SIZE)
    simp [ih]
termination_by l => l.length
decreasing_by simp [SCORING_BATCH_SIZE]; omega

/-- Every lead a batch emits is a score-annotated member of that batch. -/
theorem processBatch_mem (env : ScoreEnv) (i : Nat) (batch : List Lead) (x : Lead)
    (hx : x ∈ processBatch env i batch) : ∃ y ∈ batch, ∃ s, x = setScore y s := by
  unfold processBatch at hx
  split at hx
  · rw [List.mem_filterMap] at hx
    obtain ⟨e, he, hme⟩ := hx
    unfold mergeEntry at hme
    split at hme
    · rw [Option.map_eq_some'] at hme
      obtain ⟨y, hy, hxy⟩ := hme
      exact ⟨y, List.get?_mem hy, clampScore e.score, hxy.symm⟩
    · exact absurd hme (by simp)
  · rw [List.mem_map] at hx
    obtain ⟨y, hy, hxy⟩ := hx
    exact ⟨y, hy, 50, hxy.symm⟩

/-- Every lead the Scorer returns is a score-annotated member of its input:
the Scorer invents no leads. -/
theorem scoreLeadsInBatches_mem (env : ScoreEnv) (leads : List Lead) (x : Lead)
    (hx : x ∈ scoreLeadsInBatches env leads) : ∃ y ∈ leads, ∃ s, x = setScore y s := by
  unfold scoreLeadsInBatches at hx
  split at hx
  · rw [List.mem_map] at hx
    obtain ⟨y, hy, hxy⟩ := hx
    exact ⟨y, hy, 50, hxy.symm⟩
  · split at hx
    · simp at hx
    · rw [List.mem_mergeSort, List.mem_filter] at hx
      have hall := hx.1
      unfold allScoredLeads at hall
      rw [List.mem_flatten] at hall
      obtain ⟨bl, hbl, hxbl⟩ := hall
      rw [List.mem_map] at hbl
      obtain ⟨⟨i, b⟩, hib, hble⟩ := hbl
      subst hble
      obtain ⟨y, hy, s, hys⟩ := processBatch_mem env i b x hxbl
      refine ⟨y, ?_, s, hys⟩
      have hb : b ∈ chunk20 leads := by
        have hmem := List.mem_map_of_mem Prod.snd hib
        rwa [List.enum_map_snd] at hmem
      rw [← chunk20_flatten leads]
      exact List.mem_flatten.mpr ⟨b, hb, hy⟩

/-! ## The orchestrator only scores and persists quality-filtered leads -/

/-- Characterization of the lead lists the orchestrator hands to scoring and
persistence: the scoring input is always the quality-filtered scrape result,
and the persisted list is either that same list or the Scorer's output on it. -/
theorem pipeline_calls_spec (env : PipelineEnv) :
    (∀ ls, (executePipeline env).scoreCalledWith = some ls →
      ∃ raws, env.scrapeResult = .ok raws ∧ ls = raws.filter qualityFilter) ∧
    (∀ ls, (executePipeline env).persistCalledWith = some ls →
      ∃ raws, env.scrapeResult = .ok raws ∧
        (ls = raws.filter qualityFilter ∨
          env.scoreResult (raws.filter qualityFilter) = .ok ls)) := by
  obtain ⟨scrape, score, ins, logf, w1, w2, w3, w4⟩ := env
  unfold executePipeline stageScraping stageScoring stagePersist
  dsimp only
  cases w1 <;> cases scrape <;> cases w2 <;> cases w4 <;> simp <;>
    (repeat' split) <;> simp_all

/-- A normalized candidate always starts unscored. -/
theorem normalize_matchScore_none (raw : RawRecord) (platform : String) (l : Lead)
    (h : normalizeLeadData raw platform = some l) : l.matchScore = none := by
  simp only [normalizeLeadData] at h
  split at h
  · exact absurd h (by simp)
  · split at h
    · exact absurd h (by simp)
    · rw [Option.some.injEq] at h
      subst h
      rfl

/-- C10: a candidate lead whose only contact method is a reference URL (no
truthy email, no truthy phone) can survive normalization, but the
orchestrator's stricter quality filter (`fullName && (email || phone)`)
drops it before scoring and persistence: in every run it is absent from the
list handed to `scoreLeadsInBatches` and from the list handed to
`Lead.insertMany` (assuming the scoring stage returns only annotated input
leads, as `scoreLeadsInBatches` does by `scoreLeadsInBatches_mem`). -/
theorem urlOnly_lead_never_scored_or_persisted
    (env : PipelineEnv) (raw : RawRecord) (platform : String) (l : Lead)
    (hnorm : normalizeLeadData raw platform = some l)
    (hemail : truthy l.email = false) (hphone : truthy l.phone = false)
    (hscore : ∀ ls out, env.scoreResult ls = .ok out →
      ∀ x ∈ out, ∃ y ∈ ls, ∃ s, x = setScore y s) :
    (∀ ls, (executePipeline env).scoreCalledWith = some ls → l ∉ ls) ∧
    (∀ ls, (executePipeline env).persistCalledWith = some ls → l ∉ ls) := by
  have hq : qualityFilter l = false := by simp [qualityFilter, hemail, hphone]
  have hms : l.matchScore = none := normalize_matchScore_none raw platform l hnorm
  have hnotin : ∀ raws : List Lead, l ∉ raws.filter qualityFilter := by
    intro raws hmem
    rw [List.mem_filter] at hmem
    rw [hq] at hmem
    exact absurd hmem.2 (by simp)
  constructor
  · intro ls hls
    obtain ⟨raws, _, hfe⟩ := (pipeline_calls_spec env).1 ls hls
    subst hfe
    exact hnotin raws
  · intro ls hls hmem
    obtain ⟨raws, _, hfe | hok⟩ := (pipeline_calls_spec env).2 ls hls
    · subst hfe
      exact hnotin raws hmem
    · obtain ⟨y, _, s, hys⟩ := hscore _ _ hok l hmem
      rw [hys] at hms
      exact absurd hms (by simp [setScore])

/-- A concrete raw record whose only contact method is a website URL. -/
def rawUrlOnly : RawRecord := { name := some "Biz Co", website := some "https://biz.example" }

/-- The Lead that `normalizeLeadData` produces from `rawUrlOnly`. -/
def leadUrlOnly : Lead :=
  { fullName := some "Biz Co", linkedinUrl := some "https://biz.example",
    source := some "Google_maps" }

/-- A concrete pipeline environment whose scrape returns the URL-only lead
plus one clean lead, and whose scoring stage is the real
`scoreLeadsInBatches` (with no API key configured). -/
def envUrlOnly : PipelineEnv :=
  { scrapeResult := .ok
      [leadUrlOnly, { fullName := some "Jane Roe", email := some "jane@acme.com" }],
    scoreResult := fun ls =>
      .ok (scoreLeadsInBatches { apiKeyPresent := false, respond := fun _ => .error "" } ls) }

/-- Witness for `urlOnly_lead_never_scored_or_persisted` at a concrete
environment. -/
theorem urlOnly_lead_never_scored_or_persisted_witness :
    (∀ ls, (executePipeline envUrlOnly).scoreCalledWith = some ls → leadUrlOnly ∉ ls) ∧
    (∀ ls, (executePipeline envUrlOnly).persistCalledWith = some ls → leadUrlOnly ∉ ls) :=
  urlOnly_lead_never_scored_or_persisted envUrlOnly rawUrlOnly "google_maps" leadUrlOnly
    (by decide) (by decide) (by decide)
    (fun ls out h x hx => by
      simp only [envUrlOnly, Except.ok.injEq] at h
      subst h
      exact scoreLeadsInBatches_mem _ ls x hx)

/-! ## Batch isolation -/

/-- A well-formed parsed response for a batch of `n` leads: exactly one
entry per index, in index order, with scores given by `f`. -/
def wellFormedResponse (n : Nat) (f : Nat → Int) : List ScoreEntry :=
  (List.range n).map (fun i : Nat => { index := (i : Int), score := f i })

/-- Merging an entry for index `i + 1` into `x :: xs` is merging an entry
for index `i` into `xs`. -/
theorem mergeEntry_cons_succ (x : Lead) (xs : List Lead) (i : Nat) (s : Int) :
    mergeEntry (x :: xs) { index := ((i + 1 : Nat) : Int), score := s } =
      mergeEntry xs { index := (i : Int), score := s } := by
  unfold mergeEntry
  rw [if_pos (Int.natCast_nonneg _), if_pos (Int.natCast_nonneg _),
    Int.toNat_natCast, Int.toNat_natCast, List.get?_cons_succ]

/-- Merging a well-formed response annotates each batch member, in order,
with its clamped score. -/
theorem filterMap_wellFormedResponse : ∀ (b : List Lead) (f : Nat → Int),
    (wellFormedResponse b.length f).filterMap (mergeEntry b) =
      b.mapIdx (fun i l => setScore l (clampScore (f i)))
  | [], f => by simp [wellFormedResponse]
  | x :: xs, f => by
    rw [wellFormedResponse, List.length_cons, List.range_succ_eq_map, List.map_cons,
      List.filterMap_cons, List.map_map]
    have hhead : mergeEntry (x :: xs) { index := ((0 : Nat) : Int), score := f 0 } =
        some (setScore x (clampScore (f 0))) := by
      simp [mergeEntry]
    rw [hhead]
    have htail :
        ((List.range xs.length).map
            ((fun i : Nat => ScoreEntry.mk (i : Int) (f i)) ∘ Nat.succ)).filterMap
          (mergeEntry (x :: xs)) =
        xs.mapIdx (fun i l => setScore l (clampScore (f (i + 1)))) := by
      rw [List.filterMap_map]
      have hcongr :
          ((mergeEntry (x :: xs)) ∘ ((fun i : Nat => ScoreEntry.mk (i : Int) (f i)) ∘ Nat.succ)) =
            fun i : Nat => mergeEntry xs { index := (i : Int), score := f (i + 1) } := by
        funext i
        exact mergeEntry_cons_succ x xs i (f (i + 1))
      rw [hcongr]
      have := filterMap_wellFormedResponse xs (fun i => f (i + 1))
      rw [wellFormedResponse, List.filterMap_map] at this
      exact this
    rw [htail, List.mapIdx_cons]

/-- A batch whose response is well-formed yields its members annotated with
their computed clamped scores. -/
theorem processBatch_wellFormed (env : ScoreEnv) (j : Nat) (b : List Lead) (f : Nat → Int)
    (h : env.respond j = .ok (wellFormedResponse b.length f)) :
    processBatch env j b = b.mapIdx (fun i l => setScore l (clampScore (f i))) := by
  unfold processBatch
  rw [h]
  exact filterMap_wellFormedResponse b f

/-- A batch whose call throws yields its members with default score 50. -/
theorem processBatch_error (env : ScoreEnv) (j : Nat) (b : List Lead) (m : String)
    (h : env.respond j = .error m) :
    processBatch env j b = b.map (fun l => setScore l 50) := by
  unfold processBatch
  rw [h]

/-- C4: if one batch's scoring call throws (or its response is unparseable)
while every other batch gets a well-formed response, then before threshold
filtering every lead of the failed batch carries matchScore exactly 50,
every lead of every other batch carries its computed clamped score, and the
total count equals the input count N. -/
theorem batch_isolation (env : ScoreEnv) (leads : List Lead) (k : Nat) (msg : String)
    (sc : Nat → Nat → Int)
    (hk : k < (chunk20 leads).length)
    (hfail : env.respond k = .error msg)
    (hok : ∀ j b, (chunk20 leads)[j]? = some b → j ≠ k →
      env.respond j = .ok (wellFormedResponse b.length (sc j))) :
    allScoredLeads env leads =
      ((chunk20 leads).enum.map (fun p =>
        if p.1 = k then p.2.map (fun l => setScore l 50)
        else p.2.mapIdx (fun i l => setScore l (clampScore (sc p.1 i))))).flatten ∧
    (allScoredLeads env leads).length = leads.length := by
  have hmap :
      (chunk20 leads).enum.map (fun p => processBatch env p.1 p.2) =
        (chunk20 leads).enum.map (fun p =>
          if p.1 = k then p.2.map (fun l => setScore l 50)
          else p.2.mapIdx (fun i l => setScore l (clampScore (sc p.1 i)))) := by
    apply List.map_congr_left
    intro p hp
    obtain ⟨j, b⟩ := p
    have hjb := List.mk_mem_enum_iff_getElem?.mp hp
    by_cases hjk : j = k
    · subst hjk
      rw [if_pos rfl]
      exact processBatch_error env j b msg hfail
    · rw [if_neg hjk]
      exact processBatch_wellFormed env j b (sc j) (hok j b hjb hjk)
  have h1 : allScoredLeads env leads =
      ((chunk20 leads).enum.map (fun p =>
        if p.1 = k then p.2.map (fun l => setScore l 50)
        else p.2.mapIdx (fun i l => setScore l (clampScore (sc p.1 i))))).flatten := by
    unfold allScoredLeads
    rw [hmap]
  refine ⟨h1, ?_⟩
  rw [h1, List.length_flatten, List.map_map]
  have hlen :
      (chunk20 leads).enum.map (List.length ∘ (fun p : Nat × List Lead =>
        if p.1 = k then p.2.map (fun l => setScore l 50)
        else p.2.mapIdx (fun i l => setScore l (clampScore (sc p.1 i))))) =
        (chunk20 leads).enum.map (fun p => p.2.length) := by
    apply List.map_congr_left
    intro p hp
    by_cases hjk : p.1 = k <;> simp [hjk]
  rw [hlen]
  have hsnd : (chunk20 leads).enum.map (fun p => p.2.length) =
      ((chunk20 leads).enum.map Prod.snd).map List.length := by
    rw [List.map_map]
    rfl
  rw [hsnd, List.enum_map_snd, ← List.length_flatten, chunk20_flatten]

/-- A minimal lead used in scoring witnesses. -/
def leadA : Lead := { fullName := some "A" }

/-- 21 leads: two batches (20 + 1) under `SCORING_BATCH_SIZE = 20`. -/
def leadsTwoBatches : List Lead := List.replicate 21 leadA

/-- The two batches of `leadsTwoBatches`. -/
theorem chunk20_leadsTwoBatches :
    chunk20 leadsTwoBatches = [List.replicate 20 leadA, [leadA]] := by
  rw [show leadsTwoBatches = leadA :: List.replicate 20 leadA from rfl, chunk20]
  rw [show ((leadA :: List.replicate 20 leadA).drop SCORING_BATCH_SIZE) = [leadA] from by decide]
  rw [chunk20]
  rw [show (([leadA] : List Lead).drop SCORING_BATCH_SIZE) = [] from by decide, chunk20]
  simp [SCORING_BATCH_SIZE]

/-- A scoring environment where batch 0's call throws and every other batch
answers a well-formed response scoring 77. -/
def envBatchFail : ScoreEnv :=
  { apiKeyPresent := true,
    respond := fun j => if j = 0 then .error "parse failure"
      else .ok (wellFormedResponse 1 (fun _ => 77)) }

/-- Witness for `batch_isolation`: 21 leads, the first batch of 20 fails
(all score 50), the second batch of 1 succeeds (computed score). -/
theorem batch_isolation_witness :
    allScoredLeads envBatchFail leadsTwoBatches =
      ((chunk20 leadsTwoBatches).enum.map (fun p =>
        if p.1 = 0 then p.2.map (fun l => setScore l 50)
        else p.2.mapIdx (fun _ l => setScore l (clampScore 77)))).flatten ∧
    (allScoredLeads envBatchFail leadsTwoBatches).length = leadsTwoBatches.length :=
  batch_isolation envBatchFail leadsTwoBatches 0 "parse failure" (fun _ _ => 77)
    (by rw [chunk20_leadsTwoBatches]; decide) rfl
    (by
      intro j b hj hjk
      rw [chunk20_leadsTwoBatches] at hj
      have hlt : j < 2 := by
        by_contra hge
        rw [List.getElem?_eq_none (by simpa using Nat.le_of_not_lt hge)] at hj
        exact absurd hj (by simp)
      interval_cases j
      · exact absurd rfl hjk
      · have hb : b = [leadA] := by
          rw [show ([List.replicate 20 leadA, [leadA]] : List (List Lead))[1]? =
            some [leadA] from rfl] at hj
          exact (Option.some.inj hj).symm
        subst hb
        rfl)

/-! ## Threshold filtering and stable descending sort -/

/-- The sort comparator is transitive. -/
theorem scoreDescLe_trans : ∀ a b c : Lead, scoreDescLe a b → scoreDescLe b c → scoreDescLe a c := by
  intro a b c hab hbc
  simp only [scoreDescLe, decide_eq_true_eq] at hab hbc ⊢
  omega

/-- The sort comparator is total. -/
theorem scoreDescLe_total : ∀ a b : Lead, scoreDescLe a b || scoreDescLe b a := by
  intro a b
  simp only [scoreDescLe, Bool.or_eq_true, decide_eq_true_eq]
  omega

/-- With an API key configured, the Scorer is exactly: filter the merged
batch results by the threshold, then stable-sort descending. -/
theorem scoreLeadsInBatches_eq (env : ScoreEnv) (leads : List Lead)
    (hkey : env.apiKeyPresent = true) :
    scoreLeadsInBatches env leads =
      ((allScoredLeads env leads).filter scoreGe40).mergeSort scoreDescLe := by
  unfold scoreLeadsInBatches
  rw [hkey]
  simp only [Bool.not_true, Bool.false_eq_true, if_false]
  split
  · rename_i hempty
    rw [List.isEmpty_iff] at hempty
    subst hempty
    simp [allScoredLeads, chunk20]
  · rfl

/-- C5: with well-formed responses for every batch, the Scorer's output
contains exactly the annotated input leads whose clamped score is at least
40 (as a permutation of the threshold-filtered annotated list: every
emitted lead scores >= 40, every omitted annotated lead scored < 40), is
sorted non-increasing by matchScore, and the sort is stable (any correctly
ordered pair of the filtered list — in particular any equal-score pair —
keeps its relative order); the annotated list is the input, in order, each
lead carrying its computed clamped score. -/
theorem scorer_threshold_and_sort (env : ScoreEnv) (leads : List Lead) (sc : Nat → Nat → Int)
    (hkey : env.apiKeyPresent = true)
    (hwf : ∀ j b, (chunk20 leads)[j]? = some b →
      env.respond j = .ok (wellFormedResponse b.length (sc j))) :
    (∀ x ∈ scoreLeadsInBatches env leads, scoreGe40 x = true) ∧
    (scoreLeadsInBatches env leads).Perm ((allScoredLeads env leads).filter scoreGe40) ∧
    (scoreLeadsInBatches env leads).Pairwise (fun a b => scoreOf b ≤ scoreOf a) ∧
    (∀ a b, List.Sublist [a, b] ((allScoredLeads env leads).filter scoreGe40) →
      scoreOf b ≤ scoreOf a → List.Sublist [a, b] (scoreLeadsInBatches env leads)) ∧
    allScoredLeads env leads =
      ((chunk20 leads).enum.map (fun p =>
        p.2.mapIdx (fun i l => setScore l (clampScore (sc p.1 i))))).flatten ∧
    (allScoredLeads env leads).length = leads.length := by
  have hout := scoreLeadsInBatches_eq env leads hkey
  have hmap :
      (chunk20 leads).enum.map (fun p => processBatch env p.1 p.2) =
        (chunk20 leads).enum.map (fun p =>
          p.2.mapIdx (fun i l => setScore l (clampScore (sc p.1 i)))) := by
    apply List.map_congr_left
    intro p hp
    obtain ⟨j, b⟩ := p
    exact processBatch_wellFormed env j b (sc j)
      (hwf j b (List.mk_mem_enum_iff_getElem?.mp hp))
  have h5 : allScoredLeads env leads =
      ((chunk20 leads).enum.map (fun p =>
        p.2.mapIdx (fun i l => setScore l (clampScore (sc p.1 i))))).flatten := by
    unfold allScoredLeads
    rw [hmap]
  refine ⟨?_, ?_, ?_, ?_, h5, ?_⟩
  · intro x hx
    rw [hout, List.mem_mergeSort] at hx
    exact (List.mem_filter.mp hx).2
  · rw [hout]
    exact List.mergeSort_perm _ _
  · rw [hout]
    refine (List.sorted_mergeSort scoreDescLe_trans scoreDescLe_total _).imp ?_
    intro a b h
    simpa [scoreDescLe] using h
  · intro a b hsl hab
    rw [hout]
    exact List.pair_sublist_mergeSort scoreDescLe_trans scoreDescLe_total
      (by simpa [scoreDescLe] using hab) hsl
  · rw [h5, List.length_flatten, List.map_map]
    have hlen :
        (chunk20 leads).enum.map (List.length ∘ (fun p : Nat × List Lead =>
          p.2.mapIdx (fun i l => setScore l (clampScore (sc p.1 i))))) =
          (chunk20 leads).enum.map (fun p => p.2.length) := by
      apply List.map_congr_left
      intro p hp
      simp
    rw [hlen]
    have hsnd : (chunk20 leads).enum.map (fun p => p.2.length) =
        ((chunk20 leads).enum.map Prod.snd).map List.length := by
      rw [List.map_map]
      rfl
    rw [hsnd, List.enum_map_snd, ← List.length_flatten, chunk20_flatten]

/-- A two-lead list forms a single batch. -/
theorem chunk20_pair (x y : Lead) : chunk20 [x, y] = [[x, y]] := by
  rw [chunk20]
  rw [show (([x, y] : List Lead).drop SCORING_BATCH_SIZE) = [] from by
    simp [SCORING_BATCH_SIZE], chunk20]
  simp [SCORING_BATCH_SIZE]

/-- Two distinct leads for the sorting witness. -/
def leadB1 : Lead := { fullName := some "B1" }

/-- Second lead for the sorting witness. -/
def leadB2 : Lead := { fullName := some "B2" }

/-- Witness score function: index 0 scores 90, later indices score 10. -/
def scWitness : Nat → Nat → Int := fun _ i => if i = 0 then 90 else 10

/-- A scoring environment answering one well-formed two-entry response. -/
def envWellFormed : ScoreEnv :=
  { apiKeyPresent := true, respond := fun _ => .ok (wellFormedResponse 2 (scWitness 0)) }

/-- Witness for `scorer_threshold_and_sort` at a concrete environment. -/
theorem scorer_threshold_and_sort_witness :
    (∀ x ∈ scoreLeadsInBatches envWellFormed [leadB1, leadB2], scoreGe40 x = true) ∧
    (scoreLeadsInBatches envWellFormed [leadB1, leadB2]).Perm
      ((allScoredLeads envWellFormed [leadB1, leadB2]).filter scoreGe40) ∧
    (scoreLeadsInBatches envWellFormed [leadB1, leadB2]).Pairwise
      (fun a b => scoreOf b ≤ scoreOf a) ∧
    (∀ a b, List.Sublist [a, b]
        ((allScoredLeads envWellFormed [leadB1, leadB2]).filter scoreGe40) →
      scoreOf b ≤ scoreOf a →
      List.Sublist [a, b] (scoreLeadsInBatches envWellFormed [leadB1, leadB2])) ∧
    allScoredLeads envWellFormed [leadB1, leadB2] =
      ((chunk20 [leadB1, leadB2]).enum.map (fun p =>
        p.2.mapIdx (fun i l => setScore l (clampScore (scWitness p.1 i))))).flatten ∧
    (allScoredLeads envWellFormed [leadB1, leadB2]).length = [leadB1, leadB2].length :=
  scorer_threshold_and_sort envWellFormed [leadB1, leadB2] scWitness rfl
    (by
      intro j b hj
      rw [chunk20_pair] at hj
      have hlt : j < 1 := by
        by_contra hge
        rw [List.getElem?_eq_none (by simpa using Nat.le_of_not_lt hge)] at hj
        exact absurd hj (by simp)
      interval_cases j
      have hb : b = [leadB1, leadB2] := by
        simp only [List.getElem?_cons_zero, Option.some.injEq] at hj
        exact hj.symm
      subst hb
      rfl)

/-! ## Deduplication: order preservation and key uniqueness -/

/-- Two leads share the email identity key: both emails truthy and equal
case-insensitively after trimming. -/
def sharesEmailKey (a b : Lead) : Prop := ∃ k, emailKey a = some k ∧ emailKey b = some k

/-- Two leads share the full-name+company identity: all four fields truthy
and both pairs equal case-insensitively after trimming. -/
def sharesNameCompany (a b : Lead) : Prop :=
  truthy a.fullName = true ∧ truthy a.company = true ∧
  truthy b.fullName = true ∧ truthy b.company = true ∧
  jsTrim (jsToLower (a.fullName.getD "")) = jsTrim (jsToLower (b.fullName.getD "")) ∧
  jsTrim (jsToLower (a.company.getD "")) = jsTrim (jsToLower (b.company.getD ""))

/-- Pair-level identity implies equality of composite key strings. -/
theorem sharesNameCompany_compositeKey (a b : Lead) (h : sharesNameCompany a b) :
    ∃ c, compositeKey a = some c ∧ compositeKey b = some c := by
  obtain ⟨ha1, ha2, hb1, hb2, hn, hc⟩ := h
  refine ⟨jsTrim (jsToLower (a.fullName.getD "")) ++ "|" ++ jsTrim (jsToLower (a.company.getD "")),
    ?_, ?_⟩
  · simp [compositeKey, ha1, ha2]
  · simp [compositeKey, hb1, hb2, hn, hc]

/-- The composite check never removes entries from the seen set. -/
theorem dedupAfterEmail_subset (seen : List String) (l : Lead) :
    seen ⊆ (dedupAfterEmail seen l).2 := by
  intro x hx
  unfold dedupAfterEmail
  cases hck : compositeKey l with
  | none => exact hx
  | some c =>
    dsimp only
    by_cases hmem : ("composite:" ++ c) ∈ seen
    · rw [if_pos hmem]
      exact hx
    · rw [if_neg hmem]
      exact List.mem_cons_of_mem _ hx

/-- One dedup step never removes entries from the seen set. -/
theorem dedupStep_subset (seen : List String) (l : Lead) : seen ⊆ (dedupStep seen l).2 := by
  intro x hx
  unfold dedupStep
  cases hek : emailKey l with
  | none => exact dedupAfterEmail_subset seen l hx
  | some k =>
    dsimp only
    by_cases hmem : ("email:" ++ k) ∈ seen
    · rw [if_pos hmem]
      exact hx
    · rw [if_neg hmem]
      exact dedupAfterEmail_subset _ l (List.mem_cons_of_mem _ hx)

/-- A lead kept by the composite check had its composite key unseen, and the
key is recorded afterwards. -/
theorem dedupAfterEmail_keep_comp (seen : List String) (l : Lead) (c : String)
    (hkp : (dedupAfterEmail seen l).1 = true) (hc : compositeKey l = some c) :
    ("composite:" ++ c) ∉ seen ∧ ("composite:" ++ c) ∈ (dedupAfterEmail seen l).2 := by
  unfold dedupAfterEmail at hkp ⊢
  simp only [hc] at hkp ⊢
  by_cases hmem : ("composite:" ++ c) ∈ seen
  · rw [if_pos hmem] at hkp
    exact absurd hkp (by simp)
  · rw [if_neg hmem] at hkp ⊢
    exact ⟨hmem, List.mem_cons_self _ _⟩

/-- A kept lead with an email key had that key unseen, and the key is
recorded afterwards. -/
theorem dedupStep_keep_email (seen : List String) (l : Lead) (k : String)
    (hkp : (dedupStep seen l).1 = true) (hk : emailKey l = some k) :
    ("email:" ++ k) ∉ seen ∧ ("email:" ++ k) ∈ (dedupStep seen l).2 := by
  unfold dedupStep at hkp ⊢
  simp only [hk] at hkp ⊢
  by_cases hmem : ("email:" ++ k) ∈ seen
  · rw [if_pos hmem] at hkp
    exact absurd hkp (by simp)
  · rw [if_neg hmem] at hkp ⊢
    exact ⟨hmem, dedupAfterEmail_subset _ l (List.mem_cons_self _ _)⟩

/-- A kept lead with a composite key had that key unseen, and the key is
recorded afterwards. -/
theorem dedupStep_keep_comp (seen : List String) (l : Lead) (c : String)
    (hkp : (dedupStep seen l).1 = true) (hc : compositeKey l = some c) :
    ("composite:" ++ c) ∉ seen ∧ ("composite:" ++ c) ∈ (dedupStep seen l).2 := by
  unfold dedupStep at hkp ⊢
  cases hek : emailKey l with
  | none =>
    simp only [hek] at hkp ⊢
    exact dedupAfterEmail_keep_comp seen l c hkp hc
  | some k =>
    simp only [hek] at hkp ⊢
    by_cases hmem : ("email:" ++ k) ∈ seen
    · rw [if_pos hmem] at hkp
      exact absurd hkp (by simp)
    · rw [if_neg hmem] at hkp ⊢
      have h2 := dedupAfterEmail_keep_comp (("email:" ++ k) :: seen) l c hkp hc
      exact ⟨fun hmem2 => h2.1 (List.mem_cons_of_mem _ hmem2), h2.2⟩

/-- Invariant of the `deduplicateLeads` loop: the output is an
order-preserving sublist of the remaining input, every retained lead's keys
were unseen on entry, and no two retained leads share an identity key. -/
theorem dedupGo_spec : ∀ (ls : List Lead) (seen : List String),
    (dedupGo seen ls).Sublist ls ∧
    (∀ l ∈ dedupGo seen ls,
      (∀ k, emailKey l = some k → ("email:" ++ k) ∉ seen) ∧
      (∀ c, compositeKey l = some c → ("composite:" ++ c) ∉ seen)) ∧
    (dedupGo seen ls).Pairwise (fun a b => ¬ sharesEmailKey a b ∧ ¬ sharesNameCompany a b)
  | [], seen => by simp [dedupGo]
  | l :: ls, seen => by
    rw [dedupGo]
    cases hstep : dedupStep seen l with
    | mk keep seen2 =>
      obtain ⟨ih1, ih2, ih3⟩ := dedupGo_spec ls seen2
      have hsub : seen ⊆ seen2 := by
        have hs := dedupStep_subset seen l
        rwa [hstep] at hs
      cases keep with
      | false =>
        dsimp only
        refine ⟨ih1.cons l, ?_, ih3⟩
        intro m hm
        exact ⟨fun k hk hmem => (ih2 m hm).1 k hk (hsub hmem),
               fun c hc hmem => (ih2 m hm).2 c hc (hsub hmem)⟩
      | true =>
        dsimp only
        have hkeep : (dedupStep seen l).1 = true := by rw [hstep]
        have hseen2 : (dedupStep seen l).2 = seen2 := by rw [hstep]
        refine ⟨ih1.cons₂ l, ?_, ?_⟩
        · intro m hm
          rcases List.mem_cons.mp hm with rfl | hm2
          · constructor
            · intro k hk hmem
              exact (dedupStep_keep_email seen m k hkeep hk).1 hmem
            · intro c hc hmem
              exact (dedupStep_keep_comp seen m c hkeep hc).1 hmem
          · exact ⟨fun k hk hmem => (ih2 m hm2).1 k hk (hsub hmem),
                   fun c hc hmem => (ih2 m hm2).2 c hc (hsub hmem)⟩
        · rw [List.pairwise_cons]
          refine ⟨?_, ih3⟩
          intro m hm
          constructor
          · rintro ⟨k, hkl, hkm⟩
            have h1 := (dedupStep_keep_email seen l k hkeep hkl).2
            rw [hseen2] at h1
            exact (ih2 m hm).1 k hkm h1
          · intro hshare
            obtain ⟨c, hcl, hcm⟩ := sharesNameCompany_compositeKey l m hshare
            have h1 := (dedupStep_keep_comp seen l c hkeep hcl).2
            rw [hseen2] at h1
            exact (ih2 m hm).2 c hcm h1

/-- C6: the Deduplicator is a deterministic pure function (identical output
on identical input), its output is a sublist of the input preserving
first-occurrence order, and no two retained leads share an identity key —
neither equal trimmed case-insensitive emails nor equal trimmed
case-insensitive full-name+company pairs. -/
theorem dedup_deterministic_unique (leads : List Lead) :
    deduplicateLeads leads = deduplicateLeads leads ∧
    (deduplicateLeads leads).Sublist leads ∧
    (deduplicateLeads leads).Pairwise
      (fun a b => ¬ sharesEmailKey a b ∧ ¬ sharesNameCompany a b) :=
  ⟨rfl, (dedupGo_spec leads []).1, (dedupGo_spec leads []).2.2⟩

/-! ## The exact dedup drop rule -/

/-- Boolean email-key match between two leads. -/
def emailKeyMatch (a b : Lead) : Bool :=
  match emailKey a, emailKey b with
  | some x, some y => x == y
  | _, _ => false

/-- Boolean full-name+company pair match (identity rule (b) of the spec). -/
def nameCompanyMatch (a b : Lead) : Bool :=
  truthy a.fullName && truthy a.company && truthy b.fullName && truthy b.company &&
  (jsTrim (jsToLower (a.fullName.getD "")) == jsTrim (jsToLower (b.fullName.getD ""))) &&
  (jsTrim (jsToLower (a.company.getD "")) == jsTrim (jsToLower (b.company.getD "")))

/-- The claimed drop rule: some earlier lead of the input equals the current
lead under either identity key. -/
def claimDropped (earlier : List Lead) (l : Lead) : Bool :=
  earlier.any (fun p => emailKeyMatch p l || nameCompanyMatch p l)

/-- Process a list front to back, dropping each lead iff `rule` holds of it
and the full list of previously processed (not merely retained) leads. -/
def filterByRule (rule : List Lead → Lead → Bool) (earlier : List Lead) :
    List Lead → List Lead
  | [] => []
  | l :: ls =>
    if rule earlier l then filterByRule rule (earlier ++ [l]) ls
    else l :: filterByRule rule (earlier ++ [l]) ls

/-- First counterexample lead: unique email and name+company. -/
def cexAnn : Lead := { fullName := some "ann", company := some "acme", email := some "a@x.io" }

/-- Second lead: duplicate email of the first, fresh name+company. Dropped by
the email check, so its composite key is never recorded. -/
def cexBobDup : Lead := { fullName := some "bob", company := some "beta", email := some "a@x.io" }

/-- Third lead: fresh email but the same name+company as the second. The
claim says it must be dropped; the code retains it. -/
def cexBobNew : Lead := { fullName := some "bob", company := some "beta", email := some "b@x.io" }

/-- C7 counterexample: a lead is NOT dropped exactly when some earlier input
lead matches it under either key. `cexBobNew` shares its name+company pair
with the earlier `cexBobDup`, yet `deduplicateLeads` retains it (output
`[cexAnn, cexBobNew]`), because `cexBobDup` was dropped at the email check
before its composite key was recorded. -/
theorem dedup_drop_rule_counterexample :
    ¬ (∀ leads : List Lead, deduplicateLeads leads = filterByRule claimDropped [] leads) :=
  fun h => absurd (h [cexAnn, cexBobDup, cexBobNew]) (by decide)

/-- Some earlier processed lead shares the current lead's email key. -/
def emailDupB (earlier : List Lead) (l : Lead) : Bool :=
  earlier.any (fun p => emailKeyMatch p l)

/-- Boolean composite-key match between two leads (the code's concatenated
`name|company` string key). -/
def compKeyMatch (a b : Lead) : Bool :=
  match compositeKey a, compositeKey b with
  | some x, some y => x == y
  | _, _ => false

/-- Some earlier processed lead that was itself not an email-duplicate (of
the leads before it) shares the current lead's composite key. -/
def compDupB (earlier : List Lead) (l : Lead) : Bool :=
  (List.range earlier.length).any (fun j =>
    !emailDupB (earlier.take j) (earlier.getD j default) &&
    compKeyMatch (earlier.getD j default) l)

/-- The amended drop rule: dropped iff an earlier lead shares the email key,
or an earlier non-email-duplicate lead shares the composite key. -/
def amendedDropped (earlier : List Lead) (l : Lead) : Bool :=
  emailDupB earlier l || compDupB earlier l

/-- `emailKeyMatch` against a lead with email key `k` is key equality. -/
theorem emailKeyMatch_iff (p l : Lead) (k : String) (hk : emailKey l = some k) :
    emailKeyMatch p l = true ↔ emailKey p = some k := by
  unfold emailKeyMatch
  rw [hk]
  cases hp : emailKey p <;> simp

/-- `emailDupB` against a lead with email key `k` finds an earlier lead with
that key. -/
theorem emailDupB_iff (earlier : List Lead) (l : Lead) (k : String)
    (hk : emailKey l = some k) :
    emailDupB earlier l = true ↔ ∃ p ∈ earlier, emailKey p = some k := by
  unfold emailDupB
  rw [List.any_eq_true]
  constructor
  · rintro ⟨p, hp, hm⟩
    exact ⟨p, hp, (emailKeyMatch_iff p l k hk).mp hm⟩
  · rintro ⟨p, hp, hm⟩
    exact ⟨p, hp, (emailKeyMatch_iff p l k hk).mpr hm⟩

/-- A lead with no email key is never an email duplicate. -/
theorem emailDupB_none (earlier : List Lead) (l : Lead) (hk : emailKey l = none) :
    emailDupB earlier l = false := by
  unfold emailDupB
  rw [List.any_eq_false]
  intro p hp
  unfold emailKeyMatch
  rw [hk]
  cases emailKey p <;> simp

/-- `compKeyMatch` against a lead with composite key `c` is key equality. -/
theorem compKeyMatch_iff (p l : Lead) (c : String) (hc : compositeKey l = some c) :
    compKeyMatch p l = true ↔ compositeKey p = some c := by
  unfold compKeyMatch
  rw [hc]
  cases hp : compositeKey p <;> simp

/-- `compDupB` against a lead with composite key `c` finds an earlier
non-email-duplicate lead with that key. -/
theorem compDupB_iff (earlier : List Lead) (l : Lead) (c : String)
    (hc : compositeKey l = some c) :
    compDupB earlier l = true ↔ ∃ j, j < earlier.length ∧
      emailDupB (earlier.take j) (earlier.getD j default) = false ∧
      compositeKey (earlier.getD j default) = some c := by
  unfold compDupB
  rw [List.any_eq_true]
  constructor
  · rintro ⟨j, hj, hcond⟩
    rw [List.mem_range] at hj
    rw [Bool.and_eq_true, Bool.not_eq_true'] at hcond
    exact ⟨j, hj, hcond.1, (compKeyMatch_iff _ l c hc).mp hcond.2⟩
  · rintro ⟨j, hj, hed, hck⟩
    refine ⟨j, List.mem_range.mpr hj, ?_⟩
    rw [Bool.and_eq_true, Bool.not_eq_true']
    exact ⟨hed, (compKeyMatch_iff _ l c hc).mpr hck⟩

/-- A lead with no composite key is never a composite duplicate. -/
theorem compDupB_none (earlier : List Lead) (l : Lead) (hc : compositeKey l = none) :
    compDupB earlier l = false := by
  unfold compDupB
  rw [List.any_eq_false]
  intro j hj
  unfold compKeyMatch
  rw [hc]
  cases compositeKey (earlier.getD j default) <;> simp

/-- Key strings with a common prefix cancel. -/
theorem key_append_inj (p a b : String) (h : p ++ a = p ++ b) : a = b := by
  have hd := congrArg String.data h
  simp [String.data_append] at hd
  exact String.ext hd

/-- Email-family and composite-family key strings never collide. -/
theorem email_ne_composite (a b : String) : "email:" ++ a ≠ "composite:" ++ b := by
  intro h
  have hd := congrArg String.data h
  simp [String.data_append] at hd

/-- Email-key membership after recording an email key. -/
theorem mem_cons_email_email (k' k : String) (seen : List String) :
    ("email:" ++ k') ∈ ("email:" ++ k) :: seen ↔ (k' = k ∨ ("email:" ++ k') ∈ seen) := by
  rw [List.mem_cons]
  constructor
  · rintro (h | h)
    · exact Or.inl (key_append_inj _ _ _ h)
    · exact Or.inr h
  · rintro (h | h)
    · subst h
      exact Or.inl rfl
    · exact Or.inr h

/-- Email-key membership is unaffected by recording a composite key. -/
theorem mem_cons_email_comp (k' c : String) (seen : List String) :
    ("email:" ++ k') ∈ ("composite:" ++ c) :: seen ↔ ("email:" ++ k') ∈ seen := by
  rw [List.mem_cons]
  constructor
  · rintro (h | h)
    · exact absurd h (email_ne_composite _ _)
    · exact h
  · exact Or.inr

/-- Composite-key membership is unaffected by recording an email key. -/
theorem mem_cons_comp_email (c' k : String) (seen : List String) :
    ("composite:" ++ c') ∈ ("email:" ++ k) :: seen ↔ ("composite:" ++ c') ∈ seen := by
  rw [List.mem_cons]
  constructor
  · rintro (h | h)
    · exact absurd h.symm (email_ne_composite _ _)
    · exact h
  · exact Or.inr

/-- Composite-key membership after recording a composite key. -/
theorem mem_cons_comp_comp (c' c : String) (seen : List String) :
    ("composite:" ++ c') ∈ ("composite:" ++ c) :: seen ↔
      (c' = c ∨ ("composite:" ++ c') ∈ seen) := by
  rw [List.mem_cons]
  constructor
  · rintro (h | h)
    · exact Or.inl (key_append_inj _ _ _ h)
    · exact Or.inr h
  · rintro (h | h)
    · subst h
      exact Or.inl rfl
    · exact Or.inr h

/-- An email-key witness among `earlier ++ [l]` is one among `earlier` or
`l` itself. -/
theorem emailWitness_append (earlier : List Lead) (l : Lead) (k : String) :
    (∃ p ∈ earlier ++ [l], emailKey p = some k) ↔
      ((∃ p ∈ earlier, emailKey p = some k) ∨ emailKey l = some k) := by
  constructor
  · rintro ⟨p, hp, hpk⟩
    rcases List.mem_append.mp hp with h | h
    · exact Or.inl ⟨p, h, hpk⟩
    · rw [List.mem_singleton] at h
      subst h
      exact Or.inr hpk
  · rintro (⟨p, hp, hpk⟩ | hk)
    · exact ⟨p, List.mem_append_left _ hp, hpk⟩
    · exact ⟨l, List.mem_append_right _ (List.mem_singleton_self l), hk⟩

/-- A composite-key witness among `earlier ++ [l]` is one among `earlier`,
or `l` itself when `l` is not an email duplicate of `earlier`. -/
theorem compWitness_append (earlier : List Lead) (l : Lead) (c : String) :
    (∃ j, j < (earlier ++ [l]).length ∧
      emailDupB ((earlier ++ [l]).take j) ((earlier ++ [l]).getD j default) = false ∧
      compositeKey ((earlier ++ [l]).getD j default) = some c) ↔
    ((∃ j, j < earlier.length ∧
        emailDupB (earlier.take j) (earlier.getD j default) = false ∧
        compositeKey (earlier.getD j default) = some c) ∨
      (emailDupB earlier l = false ∧ compositeKey l = some c)) := by
  constructor
  · rintro ⟨j, hj, hed, hck⟩
    rw [List.length_append, List.length_singleton] at hj
    by_cases hjl : j < earlier.length
    · left
      rw [List.take_append_of_le_length (le_of_lt hjl)] at hed
      rw [List.getD_append earlier [l] default j hjl] at hed hck
      exact ⟨j, hjl, hed, hck⟩
    · right
      have hje : j = earlier.length := by omega
      subst hje
      rw [List.take_left] at hed
      rw [List.getD_append_right earlier [l] default earlier.length (le_refl _),
        Nat.sub_self] at hed hck
      exact ⟨hed, hck⟩
  · rintro (⟨j, hj, hed, hck⟩ | ⟨hed, hck⟩)
    · refine ⟨j, by simp; omega, ?_, ?_⟩
      · rw [List.take_append_of_le_length (le_of_lt hj)]
        rwa [List.getD_append earlier [l] default j hj]
      · rwa [List.getD_append earlier [l] default j hj]
    · refine ⟨earlier.length, by simp, ?_, ?_⟩
      · rw [List.take_left]
        rwa [List.getD_append_right earlier [l] default earlier.length (le_refl _),
          Nat.sub_self]
      · rwa [List.getD_append_right earlier [l] default earlier.length (le_refl _),
          Nat.sub_self]

/-- The loop invariant tying the seen set to the processed leads: an email
key is recorded iff some processed lead has it (whether or not that lead
was retained); a composite key is recorded iff some processed lead that was
not an email duplicate at its turn has it. -/
def dedupInv (earlier : List Lead) (seen : List String) : Prop :=
  (∀ k, ("email:" ++ k) ∈ seen ↔ ∃ p ∈ earlier, emailKey p = some k) ∧
  (∀ c, ("composite:" ++ c) ∈ seen ↔ ∃ j, j < earlier.length ∧
    emailDupB (earlier.take j) (earlier.getD j default) = false ∧
    compositeKey (earlier.getD j default) = some c)

/-- The dedup loop realises exactly the amended drop rule. -/
theorem dedupGo_eq_filterByRule :
    ∀ (ls earlier : List Lead) (seen : List String), dedupInv earlier seen →
      dedupGo seen ls = filterByRule amendedDropped earlier ls
  | [], _, _, _ => by rw [dedupGo, filterByRule]
  | l :: ls, earlier, seen, hinv => by
    rw [dedupGo, filterByRule]
    cases hek : emailKey l with
    | some k =>
      by_cases hkm : ("email:" ++ k) ∈ seen
      · -- dropped at the email check; seen unchanged
        have hstep : dedupStep seen l = (false, seen) := by
          unfold dedupStep
          simp only [hek]
          rw [if_pos hkm]
        rw [hstep]
        dsimp only
        have hdup : emailDupB earlier l = true :=
          (emailDupB_iff earlier l k hek).mpr ((hinv.1 k).mp hkm)
        have hrule : amendedDropped earlier l = true := by
          unfold amendedDropped
          rw [hdup, Bool.true_or]
        rw [if_pos hrule]
        refine dedupGo_eq_filterByRule ls (earlier ++ [l]) seen ⟨fun k' => ?_, fun c' => ?_⟩
        · rw [emailWitness_append, hinv.1 k', hek]
          constructor
          · exact Or.inl
          · rintro (h | h)
            · exact h
            · obtain ⟨p, hp, hpk⟩ := (hinv.1 k).mp hkm
              rw [Option.some.injEq] at h
              subst h
              exact ⟨p, hp, hpk⟩
        · rw [compWitness_append, hinv.2 c']
          constructor
          · exact Or.inl
          · rintro (h | ⟨hf, _⟩)
            · exact h
            · rw [hdup] at hf
              exact absurd hf (by simp)
      · -- email key fresh: recorded, composite check follows
        have hdup : emailDupB earlier l = false := by
          by_contra hne
          rw [Bool.not_eq_false] at hne
          exact hkm ((hinv.1 k).mpr ((emailDupB_iff earlier l k hek).mp hne))
        cases hck : compositeKey l with
        | some c =>
          by_cases hcm : ("composite:" ++ c) ∈ seen
          · -- dropped at the composite check; email key stays recorded
            have hstep : dedupStep seen l = (false, ("email:" ++ k) :: seen) := by
              unfold dedupStep dedupAfterEmail
              simp only [hek, hck]
              rw [if_neg hkm, if_pos (List.mem_cons_of_mem _ hcm)]
            rw [hstep]
            dsimp only
            have hcdup : compDupB earlier l = true :=
              (compDupB_iff earlier l c hck).mpr ((hinv.2 c).mp hcm)
            have hrule : amendedDropped earlier l = true := by
              unfold amendedDropped
              rw [hcdup, Bool.or_true]
            rw [if_pos hrule]
            refine dedupGo_eq_filterByRule ls (earlier ++ [l]) _ ⟨fun k' => ?_, fun c' => ?_⟩
            · rw [mem_cons_email_email, emailWitness_append, hinv.1 k', hek]
              constructor
              · rintro (h | h)
                · exact Or.inr (by rw [h])
                · exact Or.inl h
              · rintro (h | h)
                · exact Or.inr h
                · exact Or.inl (Option.some.inj h).symm
            · rw [mem_cons_comp_email, compWitness_append, hinv.2 c', hdup, hck]
              constructor
              · exact Or.inl
              · rintro (h | ⟨-, h⟩)
                · exact h
                · rw [Option.some.injEq] at h
                  rw [← h]
                  exact (hinv.2 c).mp hcm
          · -- retained: both keys recorded
            have hstep : dedupStep seen l =
                (true, ("composite:" ++ c) :: ("email:" ++ k) :: seen) := by
              unfold dedupStep dedupAfterEmail
              simp only [hek, hck]
              rw [if_neg hkm, if_neg ?hnotin]
              case hnotin =>
                rw [List.mem_cons]
                rintro (h | h)
                · exact email_ne_composite k c h.symm
                · exact hcm h
            rw [hstep]
            dsimp only
            have hcdup : compDupB earlier l = false := by
              by_contra hne
              rw [Bool.not_eq_false] at hne
              exact hcm ((hinv.2 c).mpr ((compDupB_iff earlier l c hck).mp hne))
            have hrule : amendedDropped earlier l = false := by
              unfold amendedDropped
              rw [hdup, hcdup, Bool.or_self]
            rw [if_neg (by rw [hrule]; exact Bool.false_ne_true)]
            congr 1
            refine dedupGo_eq_filterByRule ls (earlier ++ [l]) _ ⟨fun k' => ?_, fun c' => ?_⟩
            · rw [mem_cons_email_comp, mem_cons_email_email, emailWitness_append,
                hinv.1 k', hek]
              constructor
              · rintro (h | h)
                · exact Or.inr (by rw [h])
                · exact Or.inl h
              · rintro (h | h)
                · exact Or.inr h
                · exact Or.inl (Option.some.inj h).symm
            · rw [mem_cons_comp_comp, mem_cons_comp_email, compWitness_append,
                hinv.2 c', hdup, hck]
              constructor
              · rintro (h | h)
                · exact Or.inr ⟨rfl, by rw [h]⟩
                · exact Or.inl h
              · rintro (h | ⟨-, h⟩)
                · exact Or.inr h
                · exact Or.inl (Option.some.inj h).symm
        | none =>
          -- no composite key: retained, email key recorded
          have hstep : dedupStep seen l = (true, ("email:" ++ k) :: seen) := by
            unfold dedupStep dedupAfterEmail
            simp only [hek, hck]
            rw [if_neg hkm]
          rw [hstep]
          dsimp only
          have hcdup : compDupB earlier l = false := compDupB_none earlier l hck
          have hrule : amendedDropped earlier l = false := by
            unfold amendedDropped
            rw [hdup, hcdup, Bool.or_self]
          rw [if_neg (by rw [hrule]; exact Bool.false_ne_true)]
          congr 1
          refine dedupGo_eq_filterByRule ls (earlier ++ [l]) _ ⟨fun k' => ?_, fun c' => ?_⟩
          · rw [mem_cons_email_email, emailWitness_append, hinv.1 k', hek]
            constructor
            · rintro (h | h)
              · exact Or.inr (by rw [h])
              · exact Or.inl h
            · rintro (h | h)
              · exact Or.inr h
              · exact Or.inl (Option.some.inj h).symm
          · rw [mem_cons_comp_email, compWitness_append, hinv.2 c', hck]
            constructor
            · exact Or.inl
            · rintro (h | ⟨-, h⟩)
              · exact h
              · exact absurd h (by simp)
    | none =>
      -- no email key: the email check is skipped entirely
      have hdup : emailDupB earlier l = false := emailDupB_none earlier l hek
      cases hck : compositeKey l with
      | some c =>
        by_cases hcm : ("composite:" ++ c) ∈ seen
        · have hstep : dedupStep seen l = (false, seen) := by
            unfold dedupStep dedupAfterEmail
            simp only [hek, hck]
            rw [if_pos hcm]
          rw [hstep]
          dsimp only
          have hcdup : compDupB earlier l = true :=
            (compDupB_iff earlier l c hck).mpr ((hinv.2 c).mp hcm)
          have hrule : amendedDropped earlier l = true := by
            unfold amendedDropped
            rw [hcdup, Bool.or_true]
          rw [if_pos hrule]
          refine dedupGo_eq_filterByRule ls (earlier ++ [l]) seen ⟨fun k' => ?_, fun c' => ?_⟩
          · rw [emailWitness_append, hinv.1 k', hek]
            constructor
            · exact Or.inl
            · rintro (h | h)
              · exact h
              · exact absurd h (by simp)
          · rw [compWitness_append, hinv.2 c', hdup, hck]
            constructor
            · exact Or.inl
            · rintro (h | ⟨-, h⟩)
              · exact h
              · rw [Option.some.injEq] at h
                rw [← h]
                exact (hinv.2 c).mp hcm
        · have hstep : dedupStep seen l = (true, ("composite:" ++ c) :: seen) := by
            unfold dedupStep dedupAfterEmail
            simp only [hek, hck]
            rw [if_neg hcm]
          rw [hstep]
          dsimp only
          have hcdup : compDupB earlier l = false := by
            by_contra hne
            rw [Bool.not_eq_false] at hne
            exact hcm ((hinv.2 c).mpr ((compDupB_iff earlier l c hck).mp hne))
          have hrule : amendedDropped earlier l = false := by
            unfold amendedDropped
            rw [hdup, hcdup, Bool.or_self]
          rw [if_neg (by rw [hrule]; exact Bool.false_ne_true)]
          congr 1
          refine dedupGo_eq_filterByRule ls (earlier ++ [l]) _ ⟨fun k' => ?_, fun c' => ?_⟩
          · rw [mem_cons_email_comp, emailWitness_append, hinv.1 k', hek]
            constructor
            · exact Or.inl
            · rintro (h | h)
              · exact h
              · exact absurd h (by simp)
          · rw [mem_cons_comp_comp, compWitness_append, hinv.2 c', hdup, hck]
            constructor
            · rintro (h | h)
              · exact Or.inr ⟨rfl, by rw [h]⟩
              · exact Or.inl h
            · rintro (h | ⟨-, h⟩)
              · exact Or.inr h
              · exact Or.inl (Option.some.inj h).symm
      | none =>
        have hstep : dedupStep seen l = (true, seen) := by
          unfold dedupStep dedupAfterEmail
          simp only [hek, hck]
        rw [hstep]
        dsimp only
        have hcdup : compDupB earlier l = false := compDupB_none earlier l hck
        have hrule : amendedDropped earlier l = false := by
          unfold amendedDropped
          rw [hdup, hcdup, Bool.or_self]
        rw [if_neg (by rw [hrule]; exact Bool.false_ne_true)]
        congr 1
        refine dedupGo_eq_filterByRule ls (earlier ++ [l]) seen ⟨fun k' => ?_, fun c' => ?_⟩
        · rw [emailWitness_append, hinv.1 k', hek]
          constructor
          · exact Or.inl
          · rintro (h | h)
            · exact h
            · exact absurd h (by simp)
        · rw [compWitness_append, hinv.2 c', hck]
          constructor
          · exact Or.inl
          · rintro (h | ⟨-, h⟩)
            · exact h
            · exact absurd h (by simp)

/-- C7 amended: a lead is dropped if and only if (a) some earlier lead of
the input — retained or not — has the same email key (trimmed
case-insensitive email), or (b) some earlier lead that was itself not an
email-duplicate at its turn has the same composite key (the code's
`name|company` string of the trimmed lowercased full name and company).
In particular, the name+company key of a lead dropped as an email
duplicate is never recorded, while the email key of a lead dropped as a
name+company duplicate is recorded. -/
theorem dedup_amended_drop_rule (leads : List Lead) :
    deduplicateLeads leads = filterByRule amendedDropped [] leads :=
  dedupGo_eq_filterByRule leads [] [] ⟨by simp, by simp⟩
